import Mathlib

/-!
Verification of the bounded top-K candidate-selection primitive and its
accelerator adapter: the `GpuNearestHeap` constructor and the process-wide
indexing-mode state, plus the sequential Bounded Candidate Set semantics.

Machine integers are embedded as `Nat`; the one place the source truncates
(`as u32` casts in the parameter upload) is modelled as `% 2 ^ 32`.
Scores are 32-bit floats in the source but are only ever compared, never
computed with, so they are embedded as integers: only the total order matters.
-/

/-- Offset paired with a score, mirroring `ScoredPointOffset` from the source:
`idx` is the point offset (an unsigned integer id) and `score` the similarity
score (embedded as an integer, since the selector only compares scores). -/
structure ScoredPointOffset where
  idx : Nat
  score : Int
deriving DecidableEq, Repr

/-- Total order on scored candidates from the data model: better means higher
score, ties broken by smaller offset. `candLE a b` says `a` is at least as good
as `b`, i.e. `a` comes no later than `b` in the drained output. -/
def candLE (a b : ScoredPointOffset) : Prop :=
  b.score < a.score ∨ (a.score = b.score ∧ a.idx ≤ b.idx)

/-- Strict version of the candidate order: `beats a b` says `a` is strictly
better than `b` in the total order (score descending, ties offset ascending). -/
def beats (a b : ScoredPointOffset) : Prop :=
  b.score < a.score ∨ (a.score = b.score ∧ a.idx < b.idx)

instance : DecidableRel candLE := fun a b =>
  decidable_of_iff (b.score < a.score ∨ (a.score = b.score ∧ a.idx ≤ b.idx)) Iff.rfl

instance : DecidableRel beats := fun a b =>
  decidable_of_iff (b.score < a.score ∨ (a.score = b.score ∧ a.idx < b.idx)) Iff.rfl

instance : IsTotal ScoredPointOffset candLE := by
  constructor
  intro a b
  unfold candLE
  omega

instance : IsTrans ScoredPointOffset candLE := by
  constructor
  intro a b c hab hbc
  unfold candLE at hab hbc ⊢
  omega

instance : IsAntisymm ScoredPointOffset candLE := by
  constructor
  intro a b h1 h2
  obtain ⟨ai, as⟩ := a
  obtain ⟨bi, bs⟩ := b
  simp only [candLE] at h1 h2
  have hs : as = bs := by omega
  have hi : ai = bi := by omega
  rw [hs, hi]

/-- Modelled from the spec: the Bounded Candidate Set's `push` (the
fixed-length priority queue behind the selector is not among the given source
files). The state is the retained list, kept sorted best-first in the total
order `candLE`. If the set is not yet full the candidate is inserted
unconditionally; if it is full and the candidate exceeds the worst retained
one (in the total order of the data model), the worst is evicted and the
candidate inserted; otherwise it is discarded. -/
def push (ef : Nat) (s : List ScoredPointOffset) (c : ScoredPointOffset) :
    List ScoredPointOffset :=
  if s.length < ef then
    List.orderedInsert candLE c s
  else
    match s.getLast? with
    | none => s
    | some w => if beats c w then List.orderedInsert candLE c s.dropLast else s

/-- Modelled from the spec: `drain_sorted()` returns the retained candidates in
descending order of the total order (score descending, ties offset ascending). -/
def drainSorted (s : List ScoredPointOffset) : List ScoredPointOffset :=
  List.insertionSort candLE s

/-- Minimum score among a list of candidates, `none` when the list is empty. -/
def minScore : List ScoredPointOffset → Option Int
  | [] => none
  | c :: cs =>
    match minScore cs with
    | none => some c.score
    | some m => some (min c.score m)

/-- Modelled from the spec: `worst()` returns the current worst retained score,
or negative infinity (here `none`) if the set is not yet full. The embedding is
a pure function of the state, so repeated calls return the same value and leave
the state unchanged by construction. -/
def worst (ef : Nat) (s : List ScoredPointOffset) : Option Int :=
  if s.length < ef then none else minScore s

/-- Compute device abstraction: the only capability `GpuNearestHeap::new` reads
is the subgroup size (lane width). -/
structure Device where
  subgroup_size : Nat
deriving DecidableEq, Repr

/-- Buffer kinds used by `GpuNearestHeap::new`, mirroring `gpu::BufferType`. -/
inductive BufferType where
  | Storage
  | Uniform
  | CpuToGpu
deriving DecidableEq, Repr

/-- Device operations issued by `GpuNearestHeap::new`, in program order.
`allocBuffer` records the buffer kind and byte size; `uploadParams` records the
two 32-bit fields written to the staging buffer (capacity then ef, each
truncated by the `as u32` cast); `copyBuffer` records the byte count of the
staging-to-uniform copy. -/
inductive GpuOp where
  | allocBuffer : BufferType → Nat → GpuOp
  | uploadParams : Nat → Nat → GpuOp
  | copyBuffer : Nat → GpuOp
  | contextRun : GpuOp
  | waitFinish : GpuOp
  | buildDescriptorSetLayout : GpuOp
  | buildDescriptorSet : GpuOp
deriving DecidableEq, Repr

/-- Operation errors: the only constructor `GpuNearestHeap::new` uses is a
service error with a message, mirroring `OperationError::service_error`. -/
inductive OperationError where
  | service_error : String → OperationError
deriving DecidableEq, Repr

/-- Byte size of `ScoredPointOffset` in the source: a `u32` offset plus an
`f32` score. -/
def scoredPointOffsetByteSize : Nat := 8

/-- Byte size of `GpuNearestHeapParamsBuffer` in the source: two `u32` fields
(`capacity` and `ef`). -/
def paramsBufferByteSize : Nat := 8

/-- Rust `usize::div_ceil` on natural numbers (the divisor is the subgroup
size, positive on every real device). -/
def divCeil (a b : Nat) : Nat := a / b + if a % b = 0 then 0 else 1

/-- Rounded capacity computed by `GpuNearestHeap::new`:
`ef.div_ceil(subgroup_size) * subgroup_size`. -/
def ceiledEf (lane ef : Nat) : Nat := divCeil ef lane * lane

/-- Host-visible fields of `GpuNearestHeap` produced by `new`: the requested
`ef` and the rounded `capacity`, both full-width `usize` values. -/
structure GpuNearestHeap where
  ef : Nat
  capacity : Nat
deriving DecidableEq, Repr

/-- Embedding of `GpuNearestHeap::new`. Returns the trace of device operations
issued, in program order, alongside the result. The threads-count check happens
before any device operation, so the trace is empty on the error path. Buffer
allocations, the parameter upload (with the `as u32` truncation modelled as
`% 2 ^ 32`), the staging copy, and descriptor-set construction follow the
source order. -/
def GpuNearestHeap.new (device : Device) (threads_count ef : Nat) :
    List GpuOp × Except OperationError GpuNearestHeap :=
  if threads_count % device.subgroup_size ≠ 0 then
    ([], Except.error (OperationError.service_error
      "Threads count must be a multiple of subgroup size"))
  else
    let ceiled_ef := ceiledEf device.subgroup_size ef
    let buffers_elements_count := ceiled_ef * threads_count / device.subgroup_size
    ([GpuOp.allocBuffer BufferType.Storage
        (buffers_elements_count * scoredPointOffsetByteSize),
      GpuOp.allocBuffer BufferType.Uniform paramsBufferByteSize,
      GpuOp.allocBuffer BufferType.CpuToGpu paramsBufferByteSize,
      GpuOp.uploadParams (ceiled_ef % 2 ^ 32) (ef % 2 ^ 32),
      GpuOp.copyBuffer paramsBufferByteSize,
      GpuOp.contextRun, GpuOp.waitFinish,
      GpuOp.buildDescriptorSetLayout, GpuOp.buildDescriptorSet],
     Except.ok { ef := ef, capacity := ceiled_ef })

/-- Default maximum number of parallel groups,
`GPU_MAX_GROUPS_COUNT_DEFAULT` from the source. -/
def GPU_MAX_GROUPS_COUNT_DEFAULT : Nat := 256

/-- Process-wide indexing mode state: the accelerator flag `GPU_INDEXING` and
the bound `GPU_MAX_GROUPS_COUNT`, embedded as an explicit state record (the
source keeps them in two independent atomics accessed with relaxed ordering). -/
structure GpuModeState where
  gpu_indexing : Bool
  gpu_max_groups_count : Nat
deriving DecidableEq, Repr

/-- Initial value of the two statics: flag `false`, bound
`GPU_MAX_GROUPS_COUNT_DEFAULT`. -/
def initialGpuModeState : GpuModeState :=
  { gpu_indexing := false, gpu_max_groups_count := GPU_MAX_GROUPS_COUNT_DEFAULT }

/-- Embedding of `set_gpu_indexing`: store to the flag. -/
def set_gpu_indexing (b : Bool) (st : GpuModeState) : GpuModeState :=
  { st with gpu_indexing := b }

/-- Embedding of `get_gpu_indexing`: load of the flag. -/
def get_gpu_indexing (st : GpuModeState) : Bool :=
  st.gpu_indexing

/-- Embedding of `set_gpu_max_groups_count`: store to the bound. -/
def set_gpu_max_groups_count (count : Nat) (st : GpuModeState) : GpuModeState :=
  { st with gpu_max_groups_count := count }

/-- Embedding of `get_gpu_max_groups_count`: load of the bound. -/
def get_gpu_max_groups_count (st : GpuModeState) : Nat :=
  st.gpu_max_groups_count

/-- The candidate order is reflexive. -/
theorem candLE_refl (a : ScoredPointOffset) : candLE a a :=
  Or.inr ⟨rfl, Nat.le_refl _⟩

/-- A strictly better candidate is at least as good. -/
theorem candLE_of_beats {a b : ScoredPointOffset} (h : beats a b) : candLE a b := by
  unfold beats at h
  unfold candLE
  omega

/-- Being at least as good splits into strictly better or equal. -/
theorem candLE_iff_beats_or_eq (a b : ScoredPointOffset) :
    candLE a b ↔ (beats a b ∨ a = b) := by
  obtain ⟨ai, as⟩ := a
  obtain ⟨bi, bs⟩ := b
  simp only [candLE, beats, ScoredPointOffset.mk.injEq]
  omega

/-- Transitivity of the candidate order, in standalone form. -/
theorem candLE_trans {a b c : ScoredPointOffset} (h1 : candLE a b) (h2 : candLE b c) :
    candLE a c := by
  unfold candLE at h1 h2 ⊢
  omega

/-- Unfolding `push` when the set is full and has a last (worst) element. -/
theorem push_eq_of_full {ef : Nat} {s : List ScoredPointOffset}
    {c w : ScoredPointOffset} (hfull : ¬ s.length < ef) (hw : s.getLast? = some w) :
    push ef s c = if beats c w then List.orderedInsert candLE c s.dropLast else s := by
  unfold push
  rw [if_neg hfull, hw]

/-- Unfolding `push` when the set is not yet full. -/
theorem push_eq_of_not_full {ef : Nat} {s : List ScoredPointOffset}
    {c : ScoredPointOffset} (h : s.length < ef) :
    push ef s c = List.orderedInsert candLE c s := by
  unfold push
  rw [if_pos h]

/-- Taking `k + 1` elements after an ordered insert that lands within the first
`k + 1` positions is the same as inserting into the first `k` elements. -/
theorem take_orderedInsert_of_mem (c : ScoredPointOffset) :
    ∀ (L : List ScoredPointOffset) (k : Nat),
      (∃ x ∈ L.take (k + 1), candLE c x) →
      (List.orderedInsert candLE c L).take (k + 1)
        = List.orderedInsert candLE c (L.take k) := by
  intro L
  induction L with
  | nil =>
    intro k h
    simp at h
  | cons y ys ih =>
    intro k h
    by_cases hcy : candLE c y
    · cases k with
      | zero => simp [List.orderedInsert, hcy]
      | succ j => simp [List.orderedInsert, hcy]
    · cases k with
      | zero =>
        exfalso
        obtain ⟨x, hx, hcx⟩ := h
        simp only [List.take_succ_cons, List.take_zero, List.mem_singleton] at hx
        exact hcy (hx ▸ hcx)
      | succ j =>
        have hwit : ∃ x ∈ ys.take (j + 1), candLE c x := by
          obtain ⟨x, hx, hcx⟩ := h
          rw [List.take_succ_cons, List.mem_cons] at hx
          rcases hx with rfl | hx
          · exact absurd hcx hcy
          · exact ⟨x, hx, hcx⟩
        simp only [List.orderedInsert, if_neg hcy, List.take_succ_cons]
        rw [ih j hwit]

/-- Taking `k` elements is unchanged by an ordered insert that lands past the
first `k` positions. -/
theorem take_orderedInsert_of_not_mem (c : ScoredPointOffset) :
    ∀ (L : List ScoredPointOffset) (k : Nat), k ≤ L.length →
      (∀ x ∈ L.take k, ¬ candLE c x) →
      (List.orderedInsert candLE c L).take k = L.take k := by
  intro L
  induction L with
  | nil =>
    intro k hk _
    have hk0 : k = 0 := Nat.le_zero.mp hk
    rw [hk0]
    simp
  | cons y ys ih =>
    intro k hk h
    cases k with
    | zero => simp
    | succ j =>
      have hcy : ¬ candLE c y := h y (by simp)
      have hys : ∀ x ∈ ys.take j, ¬ candLE c x := by
        intro x hx
        refine h x ?_
        rw [List.take_succ_cons]
        exact List.mem_cons_of_mem _ hx
      have hj : j ≤ ys.length := by
        simp only [List.length_cons] at hk
        omega
      simp only [List.orderedInsert, if_neg hcy, List.take_succ_cons]
      rw [ih j hj hys]

/-- Every element of a sorted list is at least as good as its last element. -/
theorem candLE_last_of_sorted {A : List ScoredPointOffset} {w : ScoredPointOffset}
    (hS : (A ++ [w]).Sorted candLE) :
    ∀ x ∈ A ++ [w], candLE x w := by
  intro x hx
  have hP : List.Pairwise candLE (A ++ [w]) := hS
  rw [List.pairwise_append] at hP
  rcases List.mem_append.mp hx with hx | hx
  · exact hP.2.2 x hx w (by simp)
  · rw [List.mem_singleton] at hx
    rw [hx]
    exact candLE_refl w

/-- Key step: pushing one candidate into the retained top-`ef` of a history
yields the retained top-`ef` of the extended history. -/
theorem push_insertionSort_take (ef : Nat) (his : List ScoredPointOffset)
    (c : ScoredPointOffset) :
    push ef ((List.insertionSort candLE his).take ef) c
      = (List.insertionSort candLE (c :: his)).take ef := by
  have hSsorted : (List.insertionSort candLE his).Sorted candLE :=
    List.sorted_insertionSort candLE his
  set S := List.insertionSort candLE his with hSdef
  have hins : List.insertionSort candLE (c :: his) = List.orderedInsert candLE c S := by
    rw [hSdef]
    simp [List.insertionSort]
  rw [hins]
  by_cases hlt : (S.take ef).length < ef
  · have hSlen : S.length < ef := by
      rw [List.length_take] at hlt
      omega
    rw [push_eq_of_not_full hlt, List.take_of_length_le (Nat.le_of_lt hSlen),
      List.take_of_length_le]
    rw [List.orderedInsert_length]
    omega
  · have hefS : ef ≤ S.length := by
      rw [List.length_take] at hlt
      omega
    have hlen : (S.take ef).length = ef := by
      rw [List.length_take]
      omega
    cases ef with
    | zero => rfl
    | succ e =>
      have hne : S.take (e + 1) ≠ [] := by
        intro h0
        rw [h0] at hlen
        exact absurd hlen.symm (by simp)
      obtain ⟨w, hw⟩ : ∃ w, (S.take (e + 1)).getLast? = some w :=
        ⟨(S.take (e + 1)).getLast hne, List.getLast?_eq_getLast _ hne⟩
      obtain ⟨A, hA⟩ := List.getLast?_eq_some_iff.mp hw
      have hTsorted : (A ++ [w]).Sorted candLE := by
        rw [← hA]
        exact List.Pairwise.sublist (List.take_sublist _ _) hSsorted
      have hwmem : w ∈ S.take (e + 1) := by
        rw [hA]
        simp
      have hdropA : (S.take (e + 1)).dropLast = A := by
        rw [hA, List.dropLast_concat]
      have hAe : A = S.take e := by
        rw [← hdropA, List.dropLast_eq_take, hlen, Nat.add_sub_cancel, List.take_take,
          Nat.min_eq_left (Nat.le_succ e)]
      rw [push_eq_of_full hlt hw]
      by_cases hb : beats c w
      · rw [if_pos hb, hdropA, hAe,
          take_orderedInsert_of_mem c S e ⟨w, hwmem, candLE_of_beats hb⟩]
      · rw [if_neg hb]
        by_cases hcw : candLE c w
        · have hceq : c = w := by
            rcases (candLE_iff_beats_or_eq c w).mp hcw with hb2 | he
            · exact absurd hb2 hb
            · exact he
          rw [take_orderedInsert_of_mem c S e ⟨w, hwmem, hcw⟩, ← hAe, hA]
          have hAsorted : A.Sorted candLE := (List.pairwise_append.mp hTsorted).1
          have hp : (A ++ [w]).Perm (List.orderedInsert candLE c A) := by
            rw [hceq]
            exact (List.perm_append_singleton w A).trans
              (List.perm_orderedInsert candLE w A).symm
          exact List.eq_of_perm_of_sorted hp hTsorted
            (List.Sorted.orderedInsert c A hAsorted)
        · have hnall : ∀ x ∈ S.take (e + 1), ¬ candLE c x := by
            intro x hx hcx
            rw [hA] at hx
            exact hcw (candLE_trans hcx (candLE_last_of_sorted hTsorted x hx))
          rw [take_orderedInsert_of_not_mem c S (e + 1) hefS hnall]

/-- Sorting is invariant under permutation of the input. -/
theorem insertionSort_congr_perm {l1 l2 : List ScoredPointOffset}
    (h : l1.Perm l2) :
    List.insertionSort candLE l1 = List.insertionSort candLE l2 :=
  List.eq_of_perm_of_sorted
    ((List.perm_insertionSort candLE l1).trans
      (h.trans (List.perm_insertionSort candLE l2).symm))
    (List.sorted_insertionSort candLE l1)
    (List.sorted_insertionSort candLE l2)

/-- Folding `push` over any continuation of a history keeps the state equal to
the retained top-`ef` of the combined history. -/
theorem foldl_push_insertionSort_take (ef : Nat) :
    ∀ (l his : List ScoredPointOffset),
      l.foldl (push ef) ((List.insertionSort candLE his).take ef)
        = (List.insertionSort candLE (his ++ l)).take ef := by
  intro l
  induction l with
  | nil =>
    intro his
    simp
  | cons c l ih =>
    intro his
    rw [List.foldl_cons, push_insertionSort_take, ih (c :: his)]
    have hp : ((c :: his) ++ l).Perm (his ++ c :: l) := by
      rw [List.cons_append]
      exact (List.perm_middle).symm
    rw [insertionSort_congr_perm hp]

/-- The state built by pushing a whole stream into an empty set is the sorted
top-`ef` of the stream. -/
theorem foldl_push_eq_take (ef : Nat) (l : List ScoredPointOffset) :
    l.foldl (push ef) [] = (List.insertionSort candLE l).take ef := by
  have h := foldl_push_insertionSort_take ef l []
  simpa using h

/-- Draining after pushing a whole stream gives the sorted top-`ef` of the
stream. -/
theorem drainSorted_foldl_push (ef : Nat) (l : List ScoredPointOffset) :
    drainSorted (l.foldl (push ef) []) = (List.insertionSort candLE l).take ef := by
  rw [foldl_push_eq_take]
  exact List.eq_of_perm_of_sorted
    (List.perm_insertionSort candLE _)
    (List.sorted_insertionSort candLE _)
    (List.Pairwise.sublist (List.take_sublist _ _) (List.sorted_insertionSort candLE l))

/-- The minimum score of a sorted retained list is the score of its last
(worst) element. -/
theorem minScore_append_last (w : ScoredPointOffset) :
    ∀ A : List ScoredPointOffset, (A ++ [w]).Sorted candLE →
      minScore (A ++ [w]) = some w.score := by
  intro A
  induction A with
  | nil =>
    intro _
    simp [minScore]
  | cons a t ih =>
    intro hS
    have ht : (t ++ [w]).Sorted candLE := hS.of_cons
    have hrec := ih ht
    have hlast : candLE a w := List.rel_of_sorted_cons hS w (by simp)
    have hscore : w.score ≤ a.score := by
      unfold candLE at hlast
      omega
    rw [List.cons_append]
    unfold minScore
    rw [hrec]
    simp [min_eq_right hscore]

/-- C2: for a device lane width of at least 1, the rounded capacity
`ceiledEf lane ef = ef.div_ceil(lane) * lane` is a multiple of the lane width,
satisfies `ef ≤ capacity < ef + lane`, and is the smallest lane-width multiple
that is at least `ef`. -/
theorem c2_rounded_capacity (lane ef : Nat) (hlane : 0 < lane) :
    lane ∣ ceiledEf lane ef ∧ ef ≤ ceiledEf lane ef ∧ ceiledEf lane ef < ef + lane ∧
    ∀ m : Nat, lane ∣ m → ef ≤ m → ceiledEf lane ef ≤ m := by
  have hdm : lane * (ef / lane) + ef % lane = ef := Nat.div_add_mod ef lane
  have hmodlt : ef % lane < lane := Nat.mod_lt ef hlane
  unfold ceiledEf divCeil
  by_cases h : ef % lane = 0
  · rw [if_pos h]
    have hq : (ef / lane + 0) * lane = lane * (ef / lane) := by
      rw [Nat.add_zero, Nat.mul_comm]
    refine ⟨⟨ef / lane + 0, Nat.mul_comm _ _⟩, ?_, ?_, ?_⟩
    · rw [hq]
      omega
    · rw [hq]
      omega
    · intro m hm hefm
      obtain ⟨k, rfl⟩ := hm
      have hqk : ef / lane ≤ k := by
        refine Nat.le_of_mul_le_mul_left ?_ hlane
        omega
      rw [hq]
      exact Nat.mul_le_mul (Nat.le_refl lane) hqk
  · rw [if_neg h]
    have hq : (ef / lane + 1) * lane = lane * (ef / lane) + lane := by
      rw [Nat.add_mul, Nat.one_mul, Nat.mul_comm]
    refine ⟨⟨ef / lane + 1, Nat.mul_comm _ _⟩, ?_, ?_, ?_⟩
    · rw [hq]
      omega
    · rw [hq]
      omega
    · intro m hm hefm
      obtain ⟨k, rfl⟩ := hm
      have hlt : lane * (ef / lane) < lane * k := by omega
      have hqk : ef / lane < k := Nat.lt_of_mul_lt_mul_left hlt
      have hstep := Nat.mul_le_mul (Nat.le_refl lane) hqk
      rw [Nat.mul_succ] at hstep
      rw [hq]
      omega

/-- C1: for any capacity `ef` and any stream of pushed candidates, draining
returns exactly the top-`ef` of the pushed multiset under the total order
(score descending, ties offset ascending), sorted in that order; and any
permutation of the pushes drains to the same result, so the output is a pure
function of the multiset. -/
theorem c1_drain_sorted_top_ef (ef : Nat) (l1 l2 : List ScoredPointOffset)
    (hperm : l1.Perm l2) :
    drainSorted (l1.foldl (push ef) []) = (List.insertionSort candLE l1).take ef ∧
    drainSorted (l1.foldl (push ef) []) = drainSorted (l2.foldl (push ef) []) := by
  refine ⟨drainSorted_foldl_push ef l1, ?_⟩
  rw [drainSorted_foldl_push, drainSorted_foldl_push, insertionSort_congr_perm hperm]

/-- Witness for C1 at a concrete stream and a permutation of it. -/
theorem c1_drain_sorted_top_ef_witness :
    ([⟨1, 5⟩, ⟨2, 7⟩, ⟨3, 7⟩] : List ScoredPointOffset).Perm
        [⟨3, 7⟩, ⟨1, 5⟩, ⟨2, 7⟩] ∧
    (drainSorted (([⟨1, 5⟩, ⟨2, 7⟩, ⟨3, 7⟩] : List ScoredPointOffset).foldl (push 2) [])
        = (List.insertionSort candLE [⟨1, 5⟩, ⟨2, 7⟩, ⟨3, 7⟩]).take 2 ∧
      drainSorted (([⟨1, 5⟩, ⟨2, 7⟩, ⟨3, 7⟩] : List ScoredPointOffset).foldl (push 2) [])
        = drainSorted (([⟨3, 7⟩, ⟨1, 5⟩, ⟨2, 7⟩] : List ScoredPointOffset).foldl (push 2) [])) :=
  ⟨by decide, c1_drain_sorted_top_ef 2 _ _ (by decide)⟩

/-- C6 as stated fails: with `ef = 2`, pushing the same candidate twice retains
both copies, so the drained length is `2` while only one distinct candidate was
pushed and `min ef distinct = 1`. -/
theorem c6_counterexample :
    ¬ ((drainSorted (([⟨0, 1⟩, ⟨0, 1⟩] : List ScoredPointOffset).foldl (push 2) [])).length
        = min 2 ([⟨0, 1⟩, ⟨0, 1⟩] : List ScoredPointOffset).dedup.length) := by
  decide

/-- C6 amended: the drained length equals `min ef` (number of candidates
pushed, counted with multiplicity), not the number of distinct candidates. -/
theorem c6_drain_length (ef : Nat) (l : List ScoredPointOffset) :
    (drainSorted (l.foldl (push ef) [])).length = min ef l.length := by
  rw [drainSorted_foldl_push ef l, List.length_take,
    (List.perm_insertionSort candLE l).length_eq]

/-- C7: `worst` returns negative infinity (`none`) whenever the set holds fewer
than `ef` elements, and the score of the worst retained candidate (the last of
the best-first retained list) when it holds `ef` elements; it is a pure
function of the state, so repeated calls with no intervening push agree and
leave the state unchanged. -/
theorem c7_worst_semantics (ef : Nat) (l : List ScoredPointOffset) :
    ((l.foldl (push ef) []).length < ef → worst ef (l.foldl (push ef) []) = none) ∧
    ((l.foldl (push ef) []).length = ef →
      ∀ w, (l.foldl (push ef) []).getLast? = some w →
        worst ef (l.foldl (push ef) []) = some w.score) := by
  constructor
  · intro hsmall
    unfold worst
    rw [if_pos hsmall]
  · intro hfull w hw
    obtain ⟨A, hA⟩ := List.getLast?_eq_some_iff.mp hw
    have hsorted : (l.foldl (push ef) []).Sorted candLE := by
      rw [foldl_push_eq_take]
      exact List.Pairwise.sublist (List.take_sublist _ _)
        (List.sorted_insertionSort candLE l)
    unfold worst
    rw [if_neg (by omega), hA]
    rw [hA] at hsorted
    exact minScore_append_last w A hsorted

/-- Witness for C7 at a concrete full set of capacity 1. -/
theorem c7_worst_semantics_witness :
    (([⟨0, 5⟩, ⟨1, 7⟩] : List ScoredPointOffset).foldl (push 1) []).length = 1 ∧
    worst 1 (([⟨0, 5⟩, ⟨1, 7⟩] : List ScoredPointOffset).foldl (push 1) []) = some 7 :=
  ⟨by decide,
    (c7_worst_semantics 1 [⟨0, 5⟩, ⟨1, 7⟩]).2 (by decide) ⟨1, 7⟩ (by decide)⟩

/-- Witness for C2 at lane width 32 and `ef = 100`. -/
theorem c2_rounded_capacity_witness :
    0 < 32 ∧
    (32 ∣ ceiledEf 32 100 ∧ 100 ≤ ceiledEf 32 100 ∧ ceiledEf 32 100 < 100 + 32 ∧
      ∀ m : Nat, 32 ∣ m → 100 ≤ m → ceiledEf 32 100 ≤ m) :=
  ⟨by decide, c2_rounded_capacity 32 100 (by decide)⟩

/-- C3: on a device with a positive lane width, construction returns the
configuration (service) error exactly when the threads count is not a multiple
of the lane width, the failing path issues no buffer allocation or other
device operation, and in particular threads count 50 with lane width 32 fails
this way. -/
theorem c3_new_threads_check (lane threads ef : Nat) (_hlane : 0 < lane) :
    ((GpuNearestHeap.new ⟨lane⟩ threads ef).2
        = Except.error (OperationError.service_error
            "Threads count must be a multiple of subgroup size")
      ↔ threads % lane ≠ 0) ∧
    (threads % lane ≠ 0 → (GpuNearestHeap.new ⟨lane⟩ threads ef).1 = []) ∧
    (GpuNearestHeap.new ⟨32⟩ 50 ef).2
      = Except.error (OperationError.service_error
          "Threads count must be a multiple of subgroup size") := by
  refine ⟨?_, ?_, ?_⟩
  · by_cases hc : threads % lane = 0
    · simp [GpuNearestHeap.new, hc]
    · simp [GpuNearestHeap.new, hc]
  · intro hc
    simp [GpuNearestHeap.new, hc]
  · simp [GpuNearestHeap.new]

/-- Witness for C3 at lane width 32, threads count 50, `ef = 7`. -/
theorem c3_new_threads_check_witness :
    0 < 32 ∧
    (((GpuNearestHeap.new ⟨32⟩ 50 7).2
        = Except.error (OperationError.service_error
            "Threads count must be a multiple of subgroup size")
      ↔ 50 % 32 ≠ 0) ∧
    (50 % 32 ≠ 0 → (GpuNearestHeap.new ⟨32⟩ 50 7).1 = []) ∧
    (GpuNearestHeap.new ⟨32⟩ 50 7).2
      = Except.error (OperationError.service_error
          "Threads count must be a multiple of subgroup size")) :=
  ⟨by decide, c3_new_threads_check 32 50 7 (by decide)⟩

/-- C4 counterexample: with lane width 32 and threads count 32, the invalid
`ef = 0` is accepted: construction succeeds instead of reporting a
configuration error. -/
theorem c4_counterexample :
    (GpuNearestHeap.new ⟨32⟩ 32 0).2 = Except.ok { ef := 0, capacity := 0 } := by
  rfl

/-- C4 amended: `new` validates only the threads count; it performs no
validation of `ef` at all, and succeeds for every `ef` (including the invalid
`ef = 0`) whenever the threads count is a multiple of the lane width. -/
theorem c4_no_ef_validation (lane threads ef : Nat) (_hlane : 0 < lane)
    (hmul : threads % lane = 0) :
    (GpuNearestHeap.new ⟨lane⟩ threads ef).2
      = Except.ok { ef := ef, capacity := ceiledEf lane ef } := by
  simp [GpuNearestHeap.new, hmul]

/-- Witness for the amended C4 at lane width 32, threads count 32, `ef = 0`. -/
theorem c4_no_ef_validation_witness :
    0 < 32 ∧ 32 % 32 = 0 ∧
    (GpuNearestHeap.new ⟨32⟩ 32 0).2
      = Except.ok { ef := 0, capacity := ceiledEf 32 0 } :=
  ⟨by decide, by decide, c4_no_ef_validation 32 32 0 (by decide) (by decide)⟩

/-- C5: on success the Result Region (`nearest_buffer`) is the first
allocation performed, a storage buffer of
`rounded_capacity * group_count * sizeof(ScoredPointOffset)` bytes, where
`group_count = threads_count / lane_width`. -/
theorem c5_nearest_buffer_size (lane threads ef : Nat) (_hlane : 0 < lane)
    (hmul : threads % lane = 0) :
    (GpuNearestHeap.new ⟨lane⟩ threads ef).1.head? =
      some (GpuOp.allocBuffer BufferType.Storage
        (ceiledEf lane ef * (threads / lane) * scoredPointOffsetByteSize)) := by
  have hdvd : lane ∣ threads := Nat.dvd_of_mod_eq_zero hmul
  simp [GpuNearestHeap.new, hmul]
  left
  rw [Nat.mul_div_assoc _ hdvd]

/-- Witness for C5 at lane width 32, threads count 64, `ef = 100`. -/
theorem c5_nearest_buffer_size_witness :
    0 < 32 ∧ 64 % 32 = 0 ∧
    (GpuNearestHeap.new ⟨32⟩ 64 100).1.head? =
      some (GpuOp.allocBuffer BufferType.Storage
        (ceiledEf 32 100 * (64 / 32) * scoredPointOffsetByteSize)) :=
  ⟨by decide, by decide, c5_nearest_buffer_size 32 64 100 (by decide) (by decide)⟩

/-- C10: the uploaded parameter block stores `capacity` and `ef` truncated to
32 bits while the returned struct keeps the full untruncated values, so for
`ef ≥ 2 ^ 32` the device-visible `ef` differs from the host-side `ef`. -/
theorem c10_params_truncation (lane threads ef : Nat) (_hlane : 0 < lane)
    (hmul : threads % lane = 0) :
    (GpuNearestHeap.new ⟨lane⟩ threads ef).2
        = Except.ok { ef := ef, capacity := ceiledEf lane ef } ∧
    GpuOp.uploadParams (ceiledEf lane ef % 2 ^ 32) (ef % 2 ^ 32)
        ∈ (GpuNearestHeap.new ⟨lane⟩ threads ef).1 ∧
    (2 ^ 32 ≤ ef → ef % 2 ^ 32 ≠ ef) := by
  refine ⟨?_, ?_, by omega⟩
  · simp [GpuNearestHeap.new, hmul]
  · simp [GpuNearestHeap.new, hmul]

/-- Witness for C10 at lane width 1, threads count 1 and `ef = 2 ^ 32`. -/
theorem c10_params_truncation_witness :
    0 < 1 ∧ 1 % 1 = 0 ∧
    ((GpuNearestHeap.new ⟨1⟩ 1 (2 ^ 32)).2
        = Except.ok { ef := 2 ^ 32, capacity := ceiledEf 1 (2 ^ 32) } ∧
    GpuOp.uploadParams (ceiledEf 1 (2 ^ 32) % 2 ^ 32) (2 ^ 32 % 2 ^ 32)
        ∈ (GpuNearestHeap.new ⟨1⟩ 1 (2 ^ 32)).1 ∧
    (2 ^ 32 ≤ 2 ^ 32 → 2 ^ 32 % 2 ^ 32 ≠ 2 ^ 32)) :=
  ⟨by decide, by decide, c10_params_truncation 1 1 (2 ^ 32) (by decide) (by decide)⟩

/-- C8: in the initial process state, before any setter runs, the accelerator
flag reads `false` and the maximum groups bound reads 256. -/
theorem c8_initial_state :
    get_gpu_indexing initialGpuModeState = false ∧
    get_gpu_max_groups_count initialGpuModeState = 256 :=
  ⟨rfl, rfl⟩

/-- C9: the two mode values are independent with last-write-wins semantics:
each setter makes its own getter return the written value and leaves the other
value unchanged. -/
theorem c9_independent_last_write_wins (st : GpuModeState) (b : Bool) (n : Nat) :
    get_gpu_indexing (set_gpu_indexing b st) = b ∧
    get_gpu_max_groups_count (set_gpu_indexing b st) = get_gpu_max_groups_count st ∧
    get_gpu_max_groups_count (set_gpu_max_groups_count n st) = n ∧
    get_gpu_indexing (set_gpu_max_groups_count n st) = get_gpu_indexing st :=
  ⟨rfl, rfl, rfl, rfl⟩
